import Mathlib

/-!
Shallow embedding of `exporter/mezmoexporter/exporter.go` (the Mezmo log
exporter): record normalization (`logDataToMezmo`, lines 83-143), size-bounded
batch assembly (lines 145-177) and the transport send (`sendLinesToMezmo`,
lines 179-216).  Strings are modelled as Lean `String`s and byte lengths as
character counts (all concrete inputs below are ASCII, where the two agree).
The truncation helper and the `max*` limit constants live in `utils.go`,
which is not part of the sources at hand; they are modelled from the spec as
a parameter record `Limits` and a prefix-truncation function.
-/

/-- Model of `pcommon.Value`: a (subset of the) dynamically typed attribute
value.  `Str` returns the string payload for string-typed values and `""`
otherwise (Go's `Value.Str()`); `AsString` renders any value as a string
(Go's `Value.AsString()`). -/
inductive AttrValue where
  | str (s : String)
  | int (n : Int)
  | bool (b : Bool)
  | empty
deriving DecidableEq, Repr

/-- Go `pcommon.Value.Str()`: the raw string for string values, `""` for any
other type. -/
def AttrValue.Str : AttrValue → String
  | .str s => s
  | _ => ""

/-- Go `pcommon.Value.AsString()`: a string representation of any value. -/
def AttrValue.AsString : AttrValue → String
  | .str s => s
  | .int n => toString n
  | .bool b => if b then "true" else "false"
  | .empty => ""

/-- Whether the value is of string type. -/
def AttrValue.isStr : AttrValue → Bool
  | .str _ => true
  | _ => false

/-- Modelled from the spec: the truncation ceilings (`maxMessageSize`,
`maxAppnameLen`, `maxLogLevelLen`, `maxMetaDataSize`) and the body-size
ceiling (`maxBodySize`) are constants defined in `utils.go`, which is not
among the given sources; the spec lists them as the configuration surface. -/
structure Limits where
  maxMessageSize : Nat
  maxAppnameLen : Nat
  maxLogLevelLen : Nat
  maxMetaDataSize : Nat
  maxBodySize : Nat
deriving Repr

/-- Modelled from the spec: `truncateString` (defined in `utils.go`, not among
the given sources) length-truncates a string to at most `n` units, keeping the
prefix; the spec calls it a projection ("truncating an already-truncated
string to the same bound yields the same string"). -/
def truncateString (s : String) (n : Nat) : String :=
  String.mk (s.data.take n)

/-- Lowercase hexadecimal digit, as `encoding/hex` produces. -/
def hexDigit (n : Nat) : Char :=
  if n < 10 then Char.ofNat (48 + n) else Char.ofNat (87 + n)

/-- Go `hex.EncodeToString` over a byte sequence: two lowercase hex digits per
byte. -/
def hexEncode (bs : List Nat) : String :=
  String.mk (bs.foldr (fun b acc => hexDigit (b / 16 % 16) :: hexDigit (b % 16) :: acc) [])

/-- Go `TraceID.IsEmpty` / `SpanID.IsEmpty`: every byte is zero. -/
def idIsEmpty (bs : List Nat) : Bool :=
  bs.all (· = 0)

/-- A meta mapping (Go `map[string]string`), kept as an association list with
unique keys; `metaInsert` is map assignment `attrs[k] = v` (replace any
existing binding). -/
abbrev Meta := List (String × String)

/-- Map assignment `attrs[k] = v`: replace the binding of `k` if present,
otherwise add one. -/
def metaInsert (k v : String) : Meta → Meta
  | [] => [(k, v)]
  | q :: t => if q.1 = k then (k, v) :: t else q :: metaInsert k v t

/-- Map lookup. -/
def metaGet (k : String) (m : Meta) : Option String :=
  List.lookup k m

/-- Go `pcommon.Map.Get`: look an attribute key up. -/
def getAttr (k : String) (attrs : List (String × AttrValue)) : Option AttrValue :=
  List.lookup k attrs

/-- `mezmoLogLine` (exporter.go lines 34-40). -/
structure MezmoLogLine where
  timestamp : Int
  line : String
  app : String
  level : String
  meta : Meta
deriving DecidableEq, Repr

/-- One input log record: timestamp (ns since epoch, as `pcommon.Timestamp`),
severity text, body value, trace/span ids (byte sequences) and attributes. -/
structure LogRecord where
  timestampNs : Nat
  severityText : String
  body : AttrValue
  traceID : List Nat
  spanID : List Nat
  attributes : List (String × AttrValue)
deriving Repr

/-- One scope-logs group. -/
structure ScopeLogs where
  records : List LogRecord
deriving Repr

/-- One resource-logs group: resource attributes plus its scopes. -/
structure ResourceLogs where
  resourceAttributes : List (String × AttrValue)
  scopes : List ScopeLogs
deriving Repr

/-- The input batch (`plog.Logs`): resource groups in order. -/
abbrev Logs := List ResourceLogs

/-- The record normalizer: body of the innermost loop of `logDataToMezmo`
(exporter.go lines 98-140).  `resHost` is the enclosing resource's
`host.name` attribute (looked up once per resource, line 92); `now` is the
wall clock consulted at line 125 (`time.Now().UTC().UnixMilli()`). -/
def normalizeRecord (L : Limits) (now : Int) (resHost : Option AttrValue)
    (log : LogRecord) : MezmoLogLine :=
  let attrs : Meta := []
  let attrs := match resHost with
    | some v => metaInsert "hostname" v.AsString attrs
    | none => attrs
  let attrs := if idIsEmpty log.traceID then attrs
    else metaInsert "trace.id" (hexEncode log.traceID) attrs
  let attrs := if idIsEmpty log.spanID then attrs
    else metaInsert "span.id" (hexEncode log.spanID) attrs
  let attrs := log.attributes.foldl
    (fun m p => metaInsert p.1 (truncateString p.2.Str L.maxMetaDataSize) m) attrs
  let app := match getAttr "appname" log.attributes with
    | some v => v.Str
    | none => ""
  let tstamp : Int := (log.timestampNs / 1000000 : Nat)
  let tstamp := if tstamp = 0 then now else tstamp
  let logLevel := truncateString log.severityText L.maxLogLevelLen
  let logLevel := if logLevel = "" then "info" else logLevel
  { timestamp := tstamp
    line := truncateString log.body.Str L.maxMessageSize
    app := truncateString app L.maxAppnameLen
    level := logLevel
    meta := attrs }

/-- The resource → scope → record iteration of `logDataToMezmo`
(exporter.go lines 89-143), producing the normalized lines in order. -/
def logDataToMezmoLines (L : Limits) (now : Int) (ld : Logs) : List MezmoLogLine :=
  ld.flatMap fun rl =>
    rl.scopes.flatMap fun sl =>
      sl.records.map (normalizeRecord L now (getAttr "host.name" rl.resourceAttributes))

/-- JSON escaping of one character, as Go's `encoding/json` encoder does it
(HTML-escaping of angle brackets and ampersand included). -/
def jsonEscapeChar (c : Char) : List Char :=
  if c = '"' then ['\\', '"']
  else if c = '\\' then ['\\', '\\']
  else if c = '\n' then ['\\', 'n']
  else if c = '\r' then ['\\', 'r']
  else if c = '\t' then ['\\', 't']
  else if c = '<' then ['\\', 'u', '0', '0', '3', 'c']
  else if c = '>' then ['\\', 'u', '0', '0', '3', 'e']
  else if c = '&' then ['\\', 'u', '0', '0', '2', '6']
  else if c.toNat < 32 then
    ['\\', 'u', '0', '0', hexDigit (c.toNat / 16), hexDigit (c.toNat % 16)]
  else [c]

/-- A JSON string literal for `s`. -/
def jsonString (s : String) : String :=
  String.mk ('"' :: s.data.foldr (fun c acc => jsonEscapeChar c ++ acc) ['"'])

/-- Insert a binding into a key-sorted list (Go's `encoding/json` marshals map
keys in sorted order). -/
def insertSortedMeta (p : String × String) : Meta → Meta
  | [] => [p]
  | q :: t => if q.1 < p.1 then q :: insertSortedMeta p t else p :: q :: t

/-- Sort a meta mapping by key, as `json.Marshal` does for `map[string]string`. -/
def sortMeta (m : Meta) : Meta :=
  m.foldr insertSortedMeta []

/-- Concatenate with a separator. -/
def joinSep (sep : String) : List String → String
  | [] => ""
  | [s] => s
  | s :: t => s ++ sep ++ joinSep sep t

/-- `json.Marshal` of the `Meta` map: sorted keys, no spaces. -/
def marshalMeta (m : Meta) : String :=
  "\x7b" ++ joinSep "," ((sortMeta m).map fun p => jsonString p.1 ++ ":" ++ jsonString p.2) ++ "\x7d"

/-- `json.Marshal` of one `mezmoLogLine` (struct fields in declaration order,
per the `json:"..."` tags of exporter.go lines 34-40). -/
def marshalLine (l : MezmoLogLine) : String :=
  "\x7b\"timestamp\":" ++ toString l.timestamp
    ++ ",\"line\":" ++ jsonString l.line
    ++ ",\"app\":" ++ jsonString l.app
    ++ ",\"level\":" ++ jsonString l.level
    ++ ",\"meta\":" ++ marshalMeta l.meta ++ "\x7d"

/-- The opening of every batch document: `b.WriteString("{\"lines\": [")`
(exporter.go lines 149 and 168). -/
def docOpen : String := "\x7b\"lines\": ["

/-- The closing of every batch document: `b.WriteString("]}")`
(exporter.go lines 162 and 175). -/
def docClose : String := "]\x7d"

/-- Assembly state: the pooled buffer's contents, plus bookkeeping (not part
of the Go state) recording which lines went into the current buffer and the
documents sent so far, each paired with the lines it contains. -/
structure AssemblyState where
  buf : String
  bufLines : List MezmoLogLine
  docs : List (String × List MezmoLogLine)
deriving Repr

/-- One iteration of the assembly loop of `logDataToMezmo` (exporter.go lines
152-173) on line number `i`: write a separating comma when `i > 0`, marshal
the line, flush (close, send, reset, reopen) when the buffer length plus the
encoding's length reaches `maxBodySize - 2`, then append the encoding. -/
def pushLine (L : Limits) (i : Nat) (st : AssemblyState) (line : MezmoLogLine) :
    AssemblyState :=
  let b := if i > 0 then st.buf ++ "," else st.buf
  let lineBytes := marshalLine line
  let newBufSize := b.data.length + lineBytes.data.length
  if newBufSize ≥ L.maxBodySize - 2 then
    { buf := docOpen ++ lineBytes
      bufLines := [line]
      docs := st.docs ++ [(b ++ docClose, st.bufLines)] }
  else
    { buf := b ++ lineBytes
      bufLines := st.bufLines ++ [line]
      docs := st.docs }

/-- The assembly loop over all lines, threading the line index. -/
def assembleAux (L : Limits) : Nat → AssemblyState → List MezmoLogLine → AssemblyState
  | _, st, [] => st
  | i, st, l :: ls => assembleAux L (i + 1) (pushLine L i st l) ls

/-- Batch assembly (exporter.go lines 146-176): starting from a reset buffer
holding `{"lines": [`, run the loop, then close and send the final document.
Returns every sent document (its body, paired with the lines accumulated in
it), in send order; each element corresponds to one call of
`sendLinesToMezmo`. -/
def assembleDocs (L : Limits) (lines : List MezmoLogLine) :
    List (String × List MezmoLogLine) :=
  let st := assembleAux L 0 { buf := docOpen, bufLines := [], docs := [] } lines
  st.docs ++ [(st.buf ++ docClose, st.bufLines)]

/-- The whole push (`pushLogData` → `logDataToMezmo`): the bodies of the HTTP
requests issued for one input batch, in send order. -/
def pushDocs (L : Limits) (now : Int) (ld : Logs) : List (String × List MezmoLogLine) :=
  assembleDocs L (logDataToMezmoLines L now ld)

/-- The document shape the spec describes: `{"lines": [` then the
comma-separated JSON encodings of the document's lines, then `]}`.  Stated
from the spec's words, to be compared with the byte strings the assembler
actually produces. -/
def renderDoc (ls : List MezmoLogLine) : String :=
  docOpen ++ joinSep "," (ls.map marshalLine) ++ docClose

/-- Number of log records in an input batch. -/
def countRecords (ld : Logs) : Nat :=
  (ld.flatMap fun rl => rl.scopes.flatMap fun sl => sl.records).length

/-- The parts of the exporter configuration the sender reads
(`m.config.Compression`, `m.config.IngestURL`, `m.config.IngestKey`). -/
structure SendConfig where
  compression : Bool
  ingestURL : String
  ingestKey : String

/-- An outbound HTTP request as `sendLinesToMezmo` builds it. -/
structure HTTPRequest where
  method : String
  url : String
  headers : List (String × String)
  body : String
deriving DecidableEq, Repr

/-- The four headers added unconditionally (exporter.go lines 195-198). -/
def mezmoHeaders (cfg : SendConfig) (userAgent : String) : List (String × String) :=
  [("Accept", "application/json"), ("Content-Type", "application/json"),
   ("User-Agent", userAgent), ("apikey", cfg.ingestKey)]

/-- Request construction of `sendLinesToMezmo` (exporter.go lines 180-201).
The gzip compressor of the standard library is passed in abstractly as `gz`
(it may fail, as the code's error check on `Write` allows); with compression
on, a failure aborts the send and otherwise the compressed bytes become the
body and `Content-Encoding: gzip` is appended to the headers. -/
def buildMezmoRequest (cfg : SendConfig) (userAgent : String)
    (gz : String → Except String String) (doc : String) : Except String HTTPRequest :=
  if cfg.compression then
    match gz doc with
    | .error e => .error ("failed to compress log data: " ++ e)
    | .ok out =>
      .ok { method := "POST", url := cfg.ingestURL
            headers := mezmoHeaders cfg userAgent ++ [("Content-Encoding", "gzip")]
            body := out }
  else
    .ok { method := "POST", url := cfg.ingestURL
          headers := mezmoHeaders cfg userAgent, body := doc }

/-- The HTTP response of a completed exchange. -/
structure HTTPResponse where
  status : Nat
  body : String

/-- A diagnostic log event emitted by the sender. -/
inductive LogEvent where
  | errorStatus (status : Nat)
  | responseBody (body : String)
deriving DecidableEq, Repr

/-- What the response-handling tail of `sendLinesToMezmo` did: the error it
returns, the diagnostics it logged, whether it read the response body, and
whether it closed the response body. -/
structure ResponseOutcome where
  err : Option String
  logs : List LogEvent
  bodyRead : Bool
  bodyClosed : Bool
deriving DecidableEq, Repr

/-- Response handling of `sendLinesToMezmo` (exporter.go lines 207-215),
reached when the HTTP exchange itself completed: a status ≥ 400 logs the
status at error level and, only when debug-level logging is enabled
(`m.log.Check(zap.DebugLevel, ...)`), reads and logs the response body; the
function returns `res.Body.Close()` (closing always succeeds in the model),
so no status code ever produces an error. -/
def handleMezmoResponse (debugEnabled : Bool) (res : HTTPResponse) : ResponseOutcome :=
  if res.status ≥ 400 then
    if debugEnabled then
      { err := none, logs := [.errorStatus res.status, .responseBody res.body]
        bodyRead := true, bodyClosed := true }
    else
      { err := none, logs := [.errorStatus res.status]
        bodyRead := false, bodyClosed := true }
  else
    { err := none, logs := [], bodyRead := false, bodyClosed := true }

/-- The last binding of a key in an attribute list (the one a Go map ends up
holding after inserting the bindings in order). -/
def lookupLast (k : String) (l : List (String × AttrValue)) : Option AttrValue :=
  List.lookup k l.reverse

/-- Example limits with a 20-byte body ceiling (the other ceilings are the
production constants of `utils.go`). -/
def limits20 : Limits := ⟨16384, 512, 80, 32768, 20⟩

/-- Example limits with a 100-byte body ceiling. -/
def limits100 : Limits := ⟨16384, 512, 80, 32768, 100⟩

/-- Example limits with a 3-byte meta-value ceiling. -/
def limitsMeta3 : Limits := ⟨16384, 512, 80, 3, 10485760⟩

/-- The production limits of `utils.go` as the spec states them (10 MiB body
ceiling). -/
def limitsProd : Limits := ⟨16384, 512, 80, 32768, 10485760⟩

/-- A minimal log record: timestamp 10^6 ns (1 ms), empty severity, empty
body, empty ids, no attributes. -/
def minimalRecord : LogRecord := ⟨1000000, "", .empty, [], [], []⟩

/-- The normalized form of `minimalRecord` under any of the example limits
(its JSON encoding is 59 bytes long). -/
def minimalLine : MezmoLogLine := normalizeRecord limitsProd 99 none minimalRecord


/-- An input batch holding exactly one minimal record. -/
def batchOne : Logs := [⟨[], [⟨[minimalRecord]⟩]⟩]

/-- A batch whose single resource carries `host.name = "abcdef"` over one
minimal record. -/
def hostBatch : Logs := [⟨[("host.name", AttrValue.str "abcdef")], [⟨[minimalRecord]⟩]⟩]

/-- A record carrying the attribute `hostname = "x"` (and nothing else). -/
def hostnameAttrRecord : LogRecord :=
  ⟨1000000, "", .empty, [], [], [("hostname", AttrValue.str "x")]⟩

/-- A batch whose single resource has no attributes, over one record that
itself carries a `hostname` attribute. -/
def noHostBatch : Logs := [⟨[], [⟨[hostnameAttrRecord]⟩]⟩]

/-- A record with one attribute `k = "abcdef"`. -/
def attrRecord : LogRecord :=
  ⟨1000000, "", .empty, [], [], [("k", AttrValue.str "abcdef")]⟩

/-- A non-empty 16-byte trace id. -/
def traceId1 : List Nat := [0, 0, 0, 0, 0, 0, 0, 0, 0, 0, 0, 0, 0, 0, 0, 1]

/-- An all-zero (empty) 8-byte span id. -/
def spanId0 : List Nat := [0, 0, 0, 0, 0, 0, 0, 0]

/-- A record with a non-empty trace id and an empty span id. -/
def idRecord : LogRecord := ⟨1000000, "", .empty, traceId1, spanId0, []⟩


/-- A record whose body is an integer value. -/
def intBodyRecord : LogRecord := ⟨1000000, "", .int 7, [], [], []⟩

/-- A record with one boolean-valued attribute `k`. -/
def intAttrRecord : LogRecord :=
  ⟨1000000, "", .empty, [], [], [("k", AttrValue.bool true)]⟩

/-- An identity stand-in for the gzip codec (always succeeds). -/
def gzId : String → Except String String := fun s => .ok s

/-- An always-failing stand-in for the gzip codec. -/
def gzFail : String → Except String String := fun _ => .error "boom"

/-- A sender configuration with compression enabled. -/
def cfgGzip : SendConfig := ⟨true, "https://logs.example.com", "key"⟩

/-! ## Helper lemmas -/

theorem lookup_cons_ite {β : Type} (k a : String) (b : β) (t : List (String × β)) :
    List.lookup k ((a, b) :: t) = if k = a then some b else List.lookup k t := by
  rw [List.lookup_cons]
  cases hba : k == a
  · have h : ¬k = a := by simpa using hba
    simp [h]
  · have h : k = a := by simpa using hba
    simp [h]

theorem metaGet_metaInsert (k k' v : String) (m : Meta) :
    metaGet k (metaInsert k' v m) = if k = k' then some v else metaGet k m := by
  induction m with
  | nil =>
    by_cases h : k = k' <;> simp [metaGet, metaInsert, lookup_cons_ite, h]
  | cons q t ih =>
    obtain ⟨a, b⟩ := q
    unfold metaInsert
    by_cases hak : a = k'
    · subst hak
      by_cases hk : k = a <;> simp [metaGet, lookup_cons_ite, hk]
    · by_cases hk : k = a
      · have hkk : ¬k = k' := by rw [hk]; exact hak
        simp [metaGet, lookup_cons_ite, hk, hkk, hak]
      · unfold metaGet at ih ⊢
        simp [lookup_cons_ite, hak, hk, ih]

theorem mem_metaInsert {p : String × String} {k v : String} {m : Meta}
    (h : p ∈ metaInsert k v m) : p ∈ m ∨ p = (k, v) := by
  induction m with
  | nil =>
    simp [metaInsert] at h
    exact Or.inr h
  | cons q t ih =>
    unfold metaInsert at h
    by_cases hq : q.1 = k
    · rw [if_pos hq] at h
      rcases List.mem_cons.mp h with h' | h'
      · exact Or.inr h'
      · exact Or.inl (List.mem_cons_of_mem _ h')
    · rw [if_neg hq] at h
      rcases List.mem_cons.mp h with h' | h'
      · exact Or.inl (h' ▸ List.mem_cons_self ..)
      · rcases ih h' with h'' | h''
        · exact Or.inl (List.mem_cons_of_mem _ h'')
        · exact Or.inr h''

theorem metaGet_foldl_of_lookup_none (g : String → AttrValue → String)
    (l : List (String × AttrValue)) :
    ∀ (m : Meta) (k : String), List.lookup k l.reverse = none →
      metaGet k (l.foldl (fun m q => metaInsert q.1 (g q.1 q.2) m) m) = metaGet k m := by
  induction l with
  | nil => intro m k _; rfl
  | cons q t ih =>
    intro m k h
    obtain ⟨a, b⟩ := q
    rw [List.reverse_cons, List.lookup_append] at h
    have ht : List.lookup k t.reverse = none := by
      cases hx : List.lookup k t.reverse
      · rfl
      · rw [hx] at h
        simp at h
    have hka : ¬k = a := by
      rw [ht, Option.none_or, lookup_cons_ite] at h
      intro hk
      rw [if_pos hk] at h
      cases h
    rw [List.foldl_cons, ih _ _ ht, metaGet_metaInsert, if_neg hka]

theorem metaGet_foldl_of_lookup_some (g : String → AttrValue → String)
    (l : List (String × AttrValue)) :
    ∀ (m : Meta) (k : String) (v : AttrValue), List.lookup k l.reverse = some v →
      metaGet k (l.foldl (fun m q => metaInsert q.1 (g q.1 q.2) m) m) = some (g k v) := by
  induction l with
  | nil => intro m k v h; cases h
  | cons q t ih =>
    intro m k v h
    obtain ⟨a, b⟩ := q
    rw [List.reverse_cons, List.lookup_append] at h
    rw [List.foldl_cons]
    cases ht : List.lookup k t.reverse with
    | some w =>
      rw [ht] at h
      simp only [Option.or_some, Option.some.injEq] at h
      subst h
      exact ih _ _ _ ht
    | none =>
      rw [ht, Option.none_or, lookup_cons_ite] at h
      by_cases hk : k = a
      · rw [if_pos hk] at h
        have hb : b = v := by cases h; rfl
        subst hb
        rw [metaGet_foldl_of_lookup_none g t _ _ ht, metaGet_metaInsert, if_pos hk, hk]
      · rw [if_neg hk] at h
        cases h

theorem mem_foldl_metaInsert (g : String → AttrValue → String)
    (l : List (String × AttrValue)) :
    ∀ (m : Meta) (p : String × String),
      p ∈ l.foldl (fun m q => metaInsert q.1 (g q.1 q.2) m) m →
      p ∈ m ∨ ∃ q ∈ l, p = (q.1, g q.1 q.2) := by
  induction l with
  | nil => intro m p h; exact Or.inl h
  | cons q t ih =>
    intro m p h
    rw [List.foldl_cons] at h
    rcases ih _ p h with h' | ⟨r, hr, rfl⟩
    · rcases mem_metaInsert h' with h'' | rfl
      · exact Or.inl h''
      · exact Or.inr ⟨q, List.mem_cons_self .., rfl⟩
    · exact Or.inr ⟨r, List.mem_cons_of_mem _ hr, rfl⟩

theorem truncateString_length_le (s : String) (n : Nat) :
    (truncateString s n).data.length ≤ n := by
  simp [truncateString]

theorem AttrValue.Str_eq_empty_of_not_isStr {v : AttrValue} (h : v.isStr = false) :
    v.Str = "" := by
  cases v <;> simp_all [AttrValue.isStr, AttrValue.Str]

theorem assembleAux_lines (L : Limits) (ls : List MezmoLogLine) :
    ∀ (i : Nat) (st : AssemblyState),
      ((assembleAux L i st ls).docs.map (fun d => d.2)).flatten
          ++ (assembleAux L i st ls).bufLines
        = ((st.docs.map (fun d => d.2)).flatten ++ st.bufLines) ++ ls := by
  induction ls with
  | nil => intro i st; simp [assembleAux]
  | cons l t ih =>
    intro i st
    rw [assembleAux, ih]
    simp only [pushLine]
    split <;> split <;> simp [List.append_assoc]

theorem scopeLines_length (L : Limits) (now : Int) (resHost : Option AttrValue)
    (scopes : List ScopeLogs) :
    (scopes.flatMap fun sl => sl.records.map (normalizeRecord L now resHost)).length
      = (scopes.flatMap fun sl => sl.records).length := by
  induction scopes with
  | nil => rfl
  | cons s t ih => simp [List.flatMap_cons, ih]

theorem logDataToMezmoLines_length (L : Limits) (now : Int) (ld : Logs) :
    (logDataToMezmoLines L now ld).length = countRecords ld := by
  unfold logDataToMezmoLines countRecords
  induction ld with
  | nil => rfl
  | cons r t ih =>
    simp only [List.flatMap_cons, List.length_append, ih, scopeLines_length]

/-! ## Claim theorems -/

/-- Claim C1: the spec asserts every produced request body is strictly smaller
than the configured `maxBodySize` (uncompressed).  The code violates this:
with `maxBodySize = 20`, a single minimal record (whose encoding is 59 bytes)
trips the flush check, is written into the freshly reset buffer with no
further size check, and the final document of 72 bytes — at least
`maxBodySize` — is sent anyway. -/
theorem c1_size_bound_failure :
    ((pushDocs limits20 99 batchOne).map fun d => d.1.data.length) = [13, 72] ∧
    72 ≥ limits20.maxBodySize := by decide

/-- Claim C2: the spec asserts every sent document is `{"lines": [` plus
comma-separated line encodings plus `]}` with no trailing comma.  The code
violates this: the separating comma is written before the size check, so a
document flushed at any line index `i > 0` ends in `,]}`.  With
`maxBodySize = 100` and two minimal lines, the first sent document carries a
trailing comma and differs from the well-formed rendering of its single
line. -/
theorem c2_trailing_comma :
    (assembleDocs limits100 [minimalLine, minimalLine]).head? =
      some (docOpen ++ marshalLine minimalLine ++ "," ++ docClose, [minimalLine]) ∧
    docOpen ++ marshalLine minimalLine ++ "," ++ docClose ≠ renderDoc [minimalLine] := by
  decide

/-- Claim C3: concatenating the lines of all sent documents, in send order,
yields exactly the normalized form of every input record in resource → scope →
record iteration order, with none dropped or duplicated. -/
theorem c3_completeness (L : Limits) (now : Int) (ld : Logs) :
    ((pushDocs L now ld).map fun d => d.2).flatten = logDataToMezmoLines L now ld := by
  have h := assembleAux_lines L (logDataToMezmoLines L now ld) 0 ⟨docOpen, [], []⟩
  simp only [List.map_nil, List.flatten_nil, List.nil_append] at h
  unfold pushDocs assembleDocs
  simp [h]

/-- Claim C4: when the HTTP exchange completes, a status ≥ 400 yields no
error from the push, the status is logged as a diagnostic, the response body
is read and logged exactly when debug diagnostics are enabled, and the
response body is always closed. -/
theorem c4_status_not_error (debugEnabled : Bool) (res : HTTPResponse)
    (h : res.status ≥ 400) :
    (handleMezmoResponse debugEnabled res).err = none ∧
    (handleMezmoResponse debugEnabled res).logs.head? = some (.errorStatus res.status) ∧
    (handleMezmoResponse debugEnabled res).bodyRead = debugEnabled ∧
    (LogEvent.responseBody res.body ∈ (handleMezmoResponse debugEnabled res).logs
      ↔ debugEnabled = true) ∧
    (handleMezmoResponse debugEnabled res).bodyClosed = true := by
  unfold handleMezmoResponse
  rw [if_pos h]
  cases debugEnabled <;> simp

/-- Witness for C4 at a concrete 500 response. -/
theorem c4_status_not_error_witness :
    (handleMezmoResponse true ⟨500, "oops"⟩).err = none ∧
    (handleMezmoResponse true ⟨500, "oops"⟩).logs.head? = some (.errorStatus 500) ∧
    (handleMezmoResponse true ⟨500, "oops"⟩).bodyRead = true ∧
    (LogEvent.responseBody "oops" ∈ (handleMezmoResponse true ⟨500, "oops"⟩).logs
      ↔ true = true) ∧
    (handleMezmoResponse true ⟨500, "oops"⟩).bodyClosed = true :=
  c4_status_not_error true ⟨500, "oops"⟩ (by decide)

/-- Claim C7: the normalized level is `"info"` exactly when the severity text
is empty after truncation (else the truncated severity), and the timestamp is
`now` exactly when the record's timestamp converted to milliseconds is zero
(else those milliseconds). -/
theorem c7_defaults (L : Limits) (now : Int) (resHost : Option AttrValue)
    (log : LogRecord) :
    (normalizeRecord L now resHost log).timestamp =
      (if ((log.timestampNs / 1000000 : Nat) : Int) = 0 then now
       else ((log.timestampNs / 1000000 : Nat) : Int)) ∧
    (normalizeRecord L now resHost log).level =
      (if truncateString log.severityText L.maxLogLevelLen = "" then "info"
       else truncateString log.severityText L.maxLogLevelLen) := by
  constructor <;> rfl

/-- Claim C9: a batch with zero records still produces exactly one request
whose body is `{"lines": []}`; and for any line sequence the assembler always
sends a final document (its output is never empty). -/
theorem c9_empty_batch (L : Limits) (now : Int) (ld : Logs)
    (lines : List MezmoLogLine) (h : countRecords ld = 0) :
    pushDocs L now ld = [(docOpen ++ docClose, [])] ∧
    docOpen ++ docClose = "\x7b\"lines\": []\x7d" ∧
    assembleDocs L lines ≠ [] := by
  have hl : logDataToMezmoLines L now ld = [] := by
    have hlen := logDataToMezmoLines_length L now ld
    rw [h] at hlen
    exact List.eq_nil_of_length_eq_zero hlen
  refine ⟨?_, rfl, ?_⟩
  · unfold pushDocs
    rw [hl]
    rfl
  · unfold assembleDocs
    simp

/-- Witness for C9: a batch with one resource, one scope and no records. -/
theorem c9_empty_batch_witness :
    pushDocs limitsProd 99 [⟨[], [⟨[]⟩]⟩] = [(docOpen ++ docClose, [])] ∧
    docOpen ++ docClose = "\x7b\"lines\": []\x7d" ∧
    assembleDocs limitsProd [minimalLine] ≠ [] :=
  c9_empty_batch limitsProd 99 [⟨[], [⟨[]⟩]⟩] [minimalLine] (by decide)

/-- The meta mapping of a normalized line, split into the initial
resource/identifier-derived entries followed by the fold over the record's
own attributes (definitional reshaping of `normalizeRecord`). -/
theorem normalizeRecord_meta (L : Limits) (now : Int) (host : Option AttrValue)
    (log : LogRecord) :
    (normalizeRecord L now host log).meta =
      log.attributes.foldl
        (fun m p => metaInsert p.1 (truncateString p.2.Str L.maxMetaDataSize) m)
        (let a0 : Meta := match host with
          | some v => metaInsert "hostname" v.AsString []
          | none => []
         let a1 := if idIsEmpty log.traceID then a0
          else metaInsert "trace.id" (hexEncode log.traceID) a0
         if idIsEmpty log.spanID then a1
          else metaInsert "span.id" (hexEncode log.spanID) a1) := rfl

theorem lookup_none_of_not_fst {β : Type} (k : String) (l : List (String × β))
    (h : k ∉ l.map Prod.fst) : List.lookup k l = none := by
  rw [List.lookup_eq_none_iff]
  intro p hp
  simp only [bne_iff_ne, ne_eq]
  intro hk
  exact h (List.mem_map.mpr ⟨p, hp, hk.symm⟩)

theorem lookup_reverse_none {β : Type} (k : String) (l : List (String × β))
    (h : k ∉ l.map Prod.fst) : List.lookup k l.reverse = none :=
  lookup_none_of_not_fst _ _ (by simpa [List.map_reverse] using h)

theorem metaGet_nil (k : String) : metaGet k [] = none := rfl

theorem metaGet_attrs_foldl_none (L : Limits) (l : List (String × AttrValue)) :
    ∀ (m : Meta) (k : String), List.lookup k l.reverse = none →
      metaGet k (l.foldl
          (fun m p => metaInsert p.1 (truncateString p.2.Str L.maxMetaDataSize) m) m)
        = metaGet k m :=
  metaGet_foldl_of_lookup_none (fun _ b => truncateString b.Str L.maxMetaDataSize) l

theorem metaGet_attrs_foldl_some (L : Limits) (l : List (String × AttrValue)) :
    ∀ (m : Meta) (k : String) (v : AttrValue), List.lookup k l.reverse = some v →
      metaGet k (l.foldl
          (fun m p => metaInsert p.1 (truncateString p.2.Str L.maxMetaDataSize) m) m)
        = some (truncateString v.Str L.maxMetaDataSize) :=
  metaGet_foldl_of_lookup_some (fun _ b => truncateString b.Str L.maxMetaDataSize) l

theorem mem_attrs_foldl (L : Limits) (l : List (String × AttrValue)) :
    ∀ (m : Meta) (p : String × String),
      p ∈ l.foldl
          (fun m p => metaInsert p.1 (truncateString p.2.Str L.maxMetaDataSize) m) m →
      p ∈ m ∨ ∃ q ∈ l, p = (q.1, truncateString q.2.Str L.maxMetaDataSize) :=
  mem_foldl_metaInsert (fun _ b => truncateString b.Str L.maxMetaDataSize) l

/-- Claim C5: the spec asserts every meta value — the resource-derived
hostname included — is truncated to `maxMetaDataSize` before encoding.  The
code violates this: `attrs["hostname"] = resourceHostName.AsString()`
(line 104) applies no truncation, so with `maxMetaDataSize = 3` a six-byte
`host.name` lands in meta whole, and truncation would have changed it. -/
theorem c5_hostname_untruncated :
    ((logDataToMezmoLines limitsMeta3 99 hostBatch).map fun l => metaGet "hostname" l.meta)
      = [some "abcdef"] ∧
    ("abcdef" : String).data.length > limitsMeta3.maxMetaDataSize ∧
    truncateString "abcdef" limitsMeta3.maxMetaDataSize ≠ "abcdef" := by
  decide

/-- Claim C5 as amended: only the record's own attribute values are truncated
to `maxMetaDataSize`; the resource-derived hostname is stored untruncated as
the attribute's string representation, and `trace.id`/`span.id` are stored as
the full hex encoding of the id.  Hence every meta value is either bounded by
`maxMetaDataSize` or is one of those three entries under its dedicated key. -/
theorem c5_meta_value_bound (L : Limits) (now : Int) (host : Option AttrValue)
    (log : LogRecord) (k v : String)
    (h : (k, v) ∈ (normalizeRecord L now host log).meta) :
    v.data.length ≤ L.maxMetaDataSize ∨
    (k = "hostname" ∧ ∃ hv, host = some hv ∧ v = hv.AsString) ∨
    (k = "trace.id" ∧ v = hexEncode log.traceID) ∨
    (k = "span.id" ∧ v = hexEncode log.spanID) := by
  rw [normalizeRecord_meta] at h
  rcases mem_attrs_foldl L log.attributes _ _ h with hm0 | ⟨q, _, heq⟩
  · rcases host with _ | hv
    · by_cases htr : idIsEmpty log.traceID
      · by_cases hsp : idIsEmpty log.spanID
        · simp [htr, hsp] at hm0
        · simp [htr, hsp, metaInsert] at hm0
          exact Or.inr (Or.inr (Or.inr hm0))
      · by_cases hsp : idIsEmpty log.spanID
        · simp [htr, hsp, metaInsert] at hm0
          exact Or.inr (Or.inr (Or.inl hm0))
        · simp [htr, hsp, metaInsert] at hm0
          rcases hm0 with h1 | h1
          · exact Or.inr (Or.inr (Or.inl h1))
          · exact Or.inr (Or.inr (Or.inr h1))
    · by_cases htr : idIsEmpty log.traceID
      · by_cases hsp : idIsEmpty log.spanID
        · simp [htr, hsp, metaInsert] at hm0
          exact Or.inr (Or.inl ⟨hm0.1, hv, rfl, hm0.2⟩)
        · simp [htr, hsp, metaInsert] at hm0
          rcases hm0 with h1 | h1
          · exact Or.inr (Or.inl ⟨h1.1, hv, rfl, h1.2⟩)
          · exact Or.inr (Or.inr (Or.inr h1))
      · by_cases hsp : idIsEmpty log.spanID
        · simp [htr, hsp, metaInsert] at hm0
          rcases hm0 with h1 | h1
          · exact Or.inr (Or.inl ⟨h1.1, hv, rfl, h1.2⟩)
          · exact Or.inr (Or.inr (Or.inl h1))
        · simp [htr, hsp, metaInsert] at hm0
          rcases hm0 with h1 | h1 | h1
          · exact Or.inr (Or.inl ⟨h1.1, hv, rfl, h1.2⟩)
          · exact Or.inr (Or.inr (Or.inl h1))
          · exact Or.inr (Or.inr (Or.inr h1))
  · have hv2 : v = truncateString q.2.Str L.maxMetaDataSize := (Prod.ext_iff.mp heq).2
    rw [hv2]
    exact Or.inl (truncateString_length_le _ _)

/-- Witness for the amended C5 at a record with one oversized attribute. -/
theorem c5_meta_value_bound_witness :
    ("abc" : String).data.length ≤ limitsMeta3.maxMetaDataSize ∨
    ("k" = "hostname" ∧ ∃ hv, (none : Option AttrValue) = some hv ∧ "abc" = hv.AsString) ∨
    ("k" = "trace.id" ∧ "abc" = hexEncode attrRecord.traceID) ∨
    ("k" = "span.id" ∧ "abc" = hexEncode attrRecord.spanID) :=
  c5_meta_value_bound limitsMeta3 99 none attrRecord "k" "abc" (by decide)

/-- Claim C6: the spec asserts meta contains `hostname` exactly when the
resource carries `host.name`.  The code violates the "only if" direction: a
record attribute named `hostname` also populates the key.  Here the single
resource has no attributes at all, yet the produced line's meta maps
`hostname` to the record attribute's value. -/
theorem c6_hostname_without_resource :
    getAttr "host.name" ([] : List (String × AttrValue)) = none ∧
    ((logDataToMezmoLines limitsProd 99 noHostBatch).map fun l => metaGet "hostname" l.meta)
      = [some "x"] := by
  decide

/-- Claim C6 as amended: for a record whose own attributes use none of the
keys `hostname`, `trace.id`, `span.id`, meta binds `hostname` exactly to the
resource's value (as a string) when present, and `trace.id`/`span.id` exactly
to the lowercase hex of the respective id when it is non-empty; and any
record attribute — those keys included — ends up bound to its truncated
value, overwriting the earlier resource/identifier-derived entry, because
record attributes are inserted afterwards. -/
theorem c6_meta_key_provenance (L : Limits) (now : Int) (host : Option AttrValue)
    (log : LogRecord) :
    ("hostname" ∉ log.attributes.map Prod.fst →
      metaGet "hostname" (normalizeRecord L now host log).meta
        = host.map AttrValue.AsString) ∧
    ("trace.id" ∉ log.attributes.map Prod.fst →
      metaGet "trace.id" (normalizeRecord L now host log).meta
        = if idIsEmpty log.traceID then none else some (hexEncode log.traceID)) ∧
    ("span.id" ∉ log.attributes.map Prod.fst →
      metaGet "span.id" (normalizeRecord L now host log).meta
        = if idIsEmpty log.spanID then none else some (hexEncode log.spanID)) ∧
    (∀ k v, List.lookup k log.attributes.reverse = some v →
      metaGet k (normalizeRecord L now host log).meta
        = some (truncateString v.Str L.maxMetaDataSize)) := by
  refine ⟨?_, ?_, ?_, ?_⟩
  · intro hnot
    rw [normalizeRecord_meta,
      metaGet_attrs_foldl_none L log.attributes _ _ (lookup_reverse_none _ _ hnot)]
    rcases host with _ | hv <;>
      by_cases htr : idIsEmpty log.traceID <;>
      by_cases hsp : idIsEmpty log.spanID <;>
      simp [htr, hsp, metaGet_metaInsert, metaGet_nil]
  · intro hnot
    rw [normalizeRecord_meta,
      metaGet_attrs_foldl_none L log.attributes _ _ (lookup_reverse_none _ _ hnot)]
    rcases host with _ | hv <;>
      by_cases htr : idIsEmpty log.traceID <;>
      by_cases hsp : idIsEmpty log.spanID <;>
      simp [htr, hsp, metaGet_metaInsert, metaGet_nil]
  · intro hnot
    rw [normalizeRecord_meta,
      metaGet_attrs_foldl_none L log.attributes _ _ (lookup_reverse_none _ _ hnot)]
    rcases host with _ | hv <;>
      by_cases htr : idIsEmpty log.traceID <;>
      by_cases hsp : idIsEmpty log.spanID <;>
      simp [htr, hsp, metaGet_metaInsert, metaGet_nil]
  · intro k v hl
    rw [normalizeRecord_meta, metaGet_attrs_foldl_some L log.attributes _ _ _ hl]

/-- Witness for the amended C6: a resource hostname and a non-empty trace id
with an empty span id; and, separately, a record attribute named `hostname`
overriding. -/
theorem c6_meta_key_provenance_witness :
    metaGet "hostname" (normalizeRecord limitsProd 99 (some (AttrValue.str "h")) idRecord).meta
      = some "h" ∧
    metaGet "trace.id" (normalizeRecord limitsProd 99 (some (AttrValue.str "h")) idRecord).meta
      = some (hexEncode traceId1) ∧
    metaGet "span.id" (normalizeRecord limitsProd 99 (some (AttrValue.str "h")) idRecord).meta
      = none ∧
    metaGet "hostname" (normalizeRecord limitsProd 99 none hostnameAttrRecord).meta
      = some (truncateString (AttrValue.str "x").Str limitsProd.maxMetaDataSize) :=
  ⟨(c6_meta_key_provenance limitsProd 99 (some (AttrValue.str "h")) idRecord).1 (by decide),
   (c6_meta_key_provenance limitsProd 99 (some (AttrValue.str "h")) idRecord).2.1 (by decide),
   (c6_meta_key_provenance limitsProd 99 (some (AttrValue.str "h")) idRecord).2.2.1 (by decide),
   (c6_meta_key_provenance limitsProd 99 none hostnameAttrRecord).2.2.2 "hostname"
     (AttrValue.str "x") (by decide)⟩

theorem normalizeRecord_line (L : Limits) (now : Int) (host : Option AttrValue)
    (log : LogRecord) :
    (normalizeRecord L now host log).line = truncateString log.body.Str L.maxMessageSize :=
  rfl

/-- Claim C8: with compression enabled the request body is the compressor's
output, whose decompression is exactly the uncompressed document — the body
the request would carry with compression disabled — the headers include
`Content-Encoding: gzip`, and a compression failure aborts the send with an
error (no request).  The standard library's gzip codec is abstracted as a
compress/decompress pair satisfying the round-trip contract. -/
theorem c8_compression (cfg : SendConfig) (userAgent : String)
    (gz : String → Except String String) (unzip : String → String)
    (doc out e : String)
    (hc : cfg.compression = true)
    (hrt : ∀ s o, gz s = .ok o → unzip o = s) :
    (gz doc = .ok out →
      buildMezmoRequest cfg userAgent gz doc =
        .ok { method := "POST", url := cfg.ingestURL
              headers := mezmoHeaders cfg userAgent ++ [("Content-Encoding", "gzip")]
              body := out } ∧
      ("Content-Encoding", "gzip")
          ∈ mezmoHeaders cfg userAgent ++ [("Content-Encoding", "gzip")] ∧
      unzip out = doc ∧
      buildMezmoRequest { cfg with compression := false } userAgent gz doc =
        .ok { method := "POST", url := cfg.ingestURL
              headers := mezmoHeaders cfg userAgent, body := doc }) ∧
    (gz doc = .error e →
      buildMezmoRequest cfg userAgent gz doc =
        .error ("failed to compress log data: " ++ e)) := by
  constructor
  · intro hok
    refine ⟨?_, by simp, hrt _ _ hok, ?_⟩
    · unfold buildMezmoRequest
      rw [hc, hok]
      simp
    · unfold buildMezmoRequest
      simp [mezmoHeaders]
  · intro herr
    unfold buildMezmoRequest
    rw [hc, herr]
    simp

/-- Witness for C8: identity codec for the success path, failing codec for
the abort path, over the empty document. -/
theorem c8_compression_witness :
    (buildMezmoRequest cfgGzip "ua" gzId (docOpen ++ docClose) =
        .ok { method := "POST", url := cfgGzip.ingestURL
              headers := mezmoHeaders cfgGzip "ua" ++ [("Content-Encoding", "gzip")]
              body := docOpen ++ docClose } ∧
      ("Content-Encoding", "gzip")
          ∈ mezmoHeaders cfgGzip "ua" ++ [("Content-Encoding", "gzip")] ∧
      docOpen ++ docClose = docOpen ++ docClose ∧
      buildMezmoRequest { cfgGzip with compression := false } "ua" gzId (docOpen ++ docClose) =
        .ok { method := "POST", url := cfgGzip.ingestURL
              headers := mezmoHeaders cfgGzip "ua", body := docOpen ++ docClose }) ∧
    buildMezmoRequest cfgGzip "ua" gzFail (docOpen ++ docClose) =
      .error ("failed to compress log data: " ++ "boom") :=
  ⟨(c8_compression cfgGzip "ua" gzId (fun s => s) (docOpen ++ docClose)
      (docOpen ++ docClose) "e" rfl (fun s o h => by cases h; rfl)).1 rfl,
   (c8_compression cfgGzip "ua" gzFail (fun s => s) (docOpen ++ docClose)
      "o" "boom" rfl (fun _ _ h => nomatch h)).2 rfl⟩

/-- Claim C10: a non-string attribute value (and a non-string body) is
normalized to the empty string via `Value.Str()`, not string-coerced, while
the resource `host.name` is coerced with `Value.AsString()`. -/
theorem c10_nonstring_values (L : Limits) (now : Int) (host : Option AttrValue)
    (log1 log2 log3 : LogRecord) (k : String) (v w : AttrValue) (n : Int)
    (h1 : log1.body = v) (hv : v.isStr = false)
    (h2 : log2.attributes = [(k, w)]) (hw : w.isStr = false)
    (h3 : log3.attributes = []) :
    (normalizeRecord L now host log1).line = "" ∧
    metaGet k (normalizeRecord L now host log2).meta = some "" ∧
    metaGet "hostname" (normalizeRecord L now (some (AttrValue.int n)) log3).meta
      = some (toString n) := by
  refine ⟨?_, ?_, ?_⟩
  · rw [normalizeRecord_line, h1, AttrValue.Str_eq_empty_of_not_isStr hv]
    simp [truncateString]
  · rw [normalizeRecord_meta, h2]
    have hl : List.lookup k ([(k, w)] : List (String × AttrValue)).reverse = some w := by
      simp [lookup_cons_ite]
    rw [metaGet_attrs_foldl_some L _ _ _ _ hl, AttrValue.Str_eq_empty_of_not_isStr hw]
    simp [truncateString]
  · rw [normalizeRecord_meta, h3]
    simp only [List.foldl_nil]
    by_cases htr : idIsEmpty log3.traceID <;>
      by_cases hsp : idIsEmpty log3.spanID <;>
      simp [htr, hsp, metaGet_metaInsert, AttrValue.AsString]

/-- Witness for C10 at an integer body, a boolean attribute and an integer
`host.name`. -/
theorem c10_nonstring_values_witness :
    (normalizeRecord limitsProd 99 none intBodyRecord).line = "" ∧
    metaGet "k" (normalizeRecord limitsProd 99 none intAttrRecord).meta = some "" ∧
    metaGet "hostname" (normalizeRecord limitsProd 99 (some (AttrValue.int 5)) minimalRecord).meta
      = some (toString (5 : Int)) :=
  c10_nonstring_values limitsProd 99 none intBodyRecord intAttrRecord minimalRecord "k"
    (AttrValue.int 7) (AttrValue.bool true) 5 rfl rfl rfl rfl rfl
